import Mathlib

/-!
Shallow embedding of the query-matching engine of `backend/models/knowledge_base.py`
(class `KnowledgeBase`).

Strings are modelled as lists of Unicode code points (`Str := List Nat`); `enc`
encodes a Lean string literal into that representation.  The Unicode character
classification functions used by `normalize_text` (NFKD decomposition, canonical
combining class, the regex classes `\w` and `\s`, and `str.lower`) are modelled
by explicit code-point tables/ranges (`nfkdTable`, `cccTable`, `isWordC`,
`isSpaceC`, `toLowerC`).  The tables implement the Unicode data of the CPython
`unicodedata`/`re` modules on the character ranges that occur in the knowledge base and
in the inputs considered here: full ASCII, the Devanagari block, and a sample of
Latin precomposed letters.  In particular (checked against CPython 3.11):
Devanagari vowel signs, anusvara and virama are not `\w` (they are Mn/Mc marks,
not alphanumeric), the virama has canonical combining class 9, and Devanagari
letters have no NFKD decomposition.

The fuzzy similarity is `difflib.SequenceMatcher(None, a, b).ratio()`.  All
strings involved are shorter than 200 characters so the difflib autojunk
heuristic never triggers and no junk set exists; `ratio` is then fully
determined by the recursive longest-matching-block computation embedded below.
Floating point: the source compares `ratio() > 0.3` in IEEE doubles; all ratios
are rationals `2*M/T` with `T ≤ 200`, whose distance from `3/10` (and from each
other) is far larger than the rounding error of a correctly rounded division,
so the comparison is modelled exactly on `ℚ`.
-/

set_option maxRecDepth 100000

abbrev Str := List Nat

/-- Encode a Lean string as a list of Unicode code points. -/
def enc (s : String) : Str := s.toList.map Char.toNat

/-- Python dict lookup `d.get(k)` for insertion-ordered association lists. -/
def alookup {α β : Type} [DecidableEq α] : List (α × β) → α → Option β
  | [], _ => none
  | kv :: rest, key => if kv.1 = key then some kv.2 else alookup rest key

/-- The regex class `\s` (and `str.strip` whitespace) on the code points
modelled here: ASCII whitespace, the C1 controls 28-31, NEL and NBSP. -/
def isSpaceC (c : Nat) : Bool :=
  decide (c = 32 ∨ (9 ≤ c ∧ c ≤ 13) ∨ (28 ≤ c ∧ c ≤ 31) ∨ c = 133 ∨ c = 160)

/-- The regex class `\w` (alphanumeric or underscore) on the code points
modelled here: ASCII digits, letters, underscore, and the Devanagari letters
and digits.  Devanagari combining vowel signs, anusvara, candrabindu, visarga,
virama and nukta (0x900-0x903, 0x93A-0x94F, 0x951-0x957, 0x962-0x965, 0x970)
are Mn/Mc/Po characters, which the CPython `\w` class does not match. -/
def isWordC (c : Nat) : Bool :=
  decide ((48 ≤ c ∧ c ≤ 57) ∨ (65 ≤ c ∧ c ≤ 90) ∨ c = 95 ∨ (97 ≤ c ∧ c ≤ 122) ∨
    (0x904 ≤ c ∧ c ≤ 0x939) ∨ c = 0x93D ∨ c = 0x950 ∨ (0x958 ≤ c ∧ c ≤ 0x961) ∨
    (0x966 ≤ c ∧ c ≤ 0x96F) ∨ (0x971 ≤ c ∧ c ≤ 0x97F))

/-- `str.lower` per code point: ASCII case mapping; the other modelled
characters (Devanagari has no case) are fixed points. -/
def toLowerC (c : Nat) : Nat := if 65 ≤ c ∧ c ≤ 90 then c + 32 else c

def lowerStr (s : Str) : Str := s.map toLowerC

/-- NFKD decompositions of the modelled characters that have one: a sample of
Latin-1 precomposed letters and the Devanagari nukta letters 0x958-0x95F.
Characters absent from the table (ASCII, plain Devanagari, combining marks)
decompose to themselves. -/
def nfkdTable : List (Nat × List Nat) :=
  [(0xC9, [0x45, 0x301]), (0xE0, [0x61, 0x300]), (0xE7, [0x63, 0x327]),
   (0xE8, [0x65, 0x300]), (0xE9, [0x65, 0x301]), (0xEA, [0x65, 0x302]),
   (0xF1, [0x6E, 0x303]), (0xF6, [0x6F, 0x308]), (0xFC, [0x75, 0x308]),
   (0x130, [0x49, 0x307]),
   (0x958, [0x915, 0x93C]), (0x959, [0x916, 0x93C]), (0x95A, [0x917, 0x93C]),
   (0x95B, [0x91C, 0x93C]), (0x95C, [0x921, 0x93C]), (0x95D, [0x922, 0x93C]),
   (0x95E, [0x92B, 0x93C]), (0x95F, [0x92F, 0x93C])]

/-- Canonical combining classes of the modelled characters: the Latin combining
marks emitted by `nfkdTable`, and the Devanagari nukta (7) and virama (9).
Every other modelled character has class 0 (`unicodedata.combining` = 0). -/
def cccTable : List (Nat × Nat) :=
  [(0x300, 230), (0x301, 230), (0x302, 230), (0x303, 230), (0x307, 230),
   (0x308, 230), (0x327, 202), (0x93C, 7), (0x94D, 9)]

def nfkdC (c : Nat) : List Nat := (alookup nfkdTable c).getD [c]

def cccC (c : Nat) : Nat := (alookup cccTable c).getD 0

/-- Python `str.split()`: split on runs of whitespace, discarding empties.
`acc` is the current (unfinished) token. -/
def splitWsAux : Str → Str → List Str
  | [], acc => if acc.isEmpty then [] else [acc]
  | c :: rest, acc =>
    if isSpaceC c then
      if acc.isEmpty then splitWsAux rest [] else acc :: splitWsAux rest []
    else splitWsAux rest (acc ++ [c])

def splitWs (s : Str) : List Str := splitWsAux s []

/-- Join tokens with a single space (code point 32). -/
def joinWithSpace : List Str → Str
  | [] => []
  | [t] => t
  | t :: ts => t ++ 32 :: joinWithSpace ts

/-- The first three steps of `normalize_text`: NFKD-decompose, strip combining
marks, and replace every character that is neither `\w` nor `\s` by a space
(`re.sub` of the class `[^\w\s]` by a single space). -/
def cleaned (s : Str) : Str :=
  (((s.map nfkdC).flatten).filter (fun c => cccC c == 0)).map
    (fun c => if isWordC c || isSpaceC c then c else 32)

/-- `KnowledgeBase.normalize_text`: NFKD-decompose, strip combining marks,
replace every character that is neither `\w` nor `\s` by a space, collapse
whitespace runs and trim (`re.sub` of `\s+` by one space, then `strip()`, realised as
split-and-rejoin, which yields the same string), and lowercase. -/
def normalize_text (s : Str) : Str :=
  lowerStr (joinWithSpace (splitWs (cleaned s)))

/-- A knowledge-base entry (`{id, question, answer, keywords}`). -/
structure Entry where
  eid : Str
  question : List (Str × List Str)
  answer : List (Str × Str)
  keywords : List Str
deriving DecidableEq

/-- A category (`{name, entries}`). -/
structure Category where
  cname : List (Str × Str)
  entries : List Entry
deriving DecidableEq

/-- The loaded knowledge-base data (`self.data`): `categories`,
`common_questions` and `responses`; `metadata` is never read by the engine. -/
structure KBData where
  categories : List (Str × Category)
  common_questions : List (Str × List (Str × List Str))
  responses : List (Str × List (Str × Str))
deriving DecidableEq

/-- An index reference: the dict with keys category, entry_id and entry. -/
structure Ref where
  category : Str
  entry_id : Str
  entry : Entry
deriving DecidableEq

/-- A search result; keyword matches carry no similarity, fuzzy matches do.
A similarity is recorded by the exact data that determines it: the pair
`(M, T)` of the total matched size and the combined length, denoting the
ratio `2*M/T` (or 1 when `T = 0`), interpreted in `ℚ` by `simVal`. -/
structure MatchR where
  category : Str
  entry_id : Str
  entry : Entry
  similarity : Option (Nat × Nat)
deriving DecidableEq

/-- Entry `rice_planting_time` of `create_default_knowledge_base`. -/
def rice_planting_time : Entry where
  eid := enc "rice_planting_time"
  question :=
    [(enc "en", [enc "when to plant rice", enc "rice planting season",
                 enc "best time for rice cultivation"]),
     (enc "hi", [enc "चावल कब लगाएं", enc "चावल बोने का समय", enc "धान की खेती का समय"])]
  answer :=
    [(enc "en", enc "Rice should be planted during monsoon season, typically June to July in most regions of India. For Kharif rice, plant after the first good rain when soil moisture is adequate. Transplant 20-25 day old seedlings in well-prepared, puddled fields."),
     (enc "hi", enc "चावल मानसून के दौरान लगाना चाहिए, भारत के अधिकांश क्षेत्रों में आमतौर पर जून से जुलाई में। खरीफ चावल के लिए, जब मिट्टी में पर्याप्त नमी हो तो पहली अच्छी बारिश के बाद बोएं। 20-25 दिन पुराने पौधों को तैयार खेत में रोपें।")]
  keywords := [enc "rice", enc "paddy", enc "monsoon", enc "kharif",
               enc "चावल", enc "धान", enc "खरीफ", enc "मानसून"]

/-- Entry `wheat_cultivation` of `create_default_knowledge_base`. -/
def wheat_cultivation : Entry where
  eid := enc "wheat_cultivation"
  question :=
    [(enc "en", [enc "when to sow wheat", enc "wheat planting time", enc "rabi wheat season"]),
     (enc "hi", [enc "गेहूं कब बोएं", enc "गेहूं बोने का समय", enc "रबी गेहूं का मौसम"])]
  answer :=
    [(enc "en", enc "Wheat is a Rabi crop, best sown from November to December. The ideal temperature for sowing is 18-25°C. Ensure adequate soil moisture and sow seeds at 2-3 cm depth with proper row spacing of 20-25 cm."),
     (enc "hi", enc "गेहूं एक रबी की फसल है, जो नवंबर से दिसंबर में बोई जाती है। बुआई के लिए आदर्श तापमान 18-25°C है। पर्याप्त मिट्टी की नमी सुनिश्चित करें और बीजों को 2-3 सेमी गहराई में 20-25 सेमी की उचित पंक्ति दूरी के साथ बोएं।")]
  keywords := [enc "wheat", enc "rabi", enc "november", enc "december",
               enc "गेहूं", enc "रबी", enc "नवंबर", enc "दिसंबर"]

/-- Entry `soil_testing` of `create_default_knowledge_base`. -/
def soil_testing : Entry where
  eid := enc "soil_testing"
  question :=
    [(enc "en", [enc "how to test soil", enc "soil testing methods", enc "check soil quality"]),
     (enc "hi", [enc "मिट्टी की जांच कैसे करें", enc "भूमि परीक्षण", enc "मिट्टी की गुणवत्ता"])]
  answer :=
    [(enc "en", enc "Test your soil every 2-3 years. Collect samples from 6-8 inches depth from multiple spots. Test for pH, nitrogen, phosphorus, potassium, and organic matter. Contact your local agriculture extension office or use soil testing kits."),
     (enc "hi", enc "हर 2-3 साल में अपनी मिट्टी की जांच करवाएं। कई स्थानों से 6-8 इंच की गहराई से नमूने लें। pH, नाइट्रोजन, फास्फोरस, पोटेशियम और जैविक पदार्थ की जांच कराएं। स्थानीय कृषि विस्तार कार्यालय से संपर्क करें।")]
  keywords := [enc "soil test", enc "pH", enc "nitrogen", enc "phosphorus", enc "potassium",
               enc "मिट्टी जांच", enc "नाइट्रोजन", enc "फास्फोरस", enc "पोटेशियम"]

/-- Category `crop_planning` of the default knowledge base. -/
def crop_planning : Category where
  cname := [(enc "en", enc "Crop Planning and Timing"), (enc "hi", enc "फसल योजना और समय")]
  entries := [rice_planting_time, wheat_cultivation]

/-- Category `soil_management` of the default knowledge base. -/
def soil_management : Category where
  cname := [(enc "en", enc "Soil Management"), (enc "hi", enc "मिट्टी प्रबंधन")]
  entries := [soil_testing]

/-- `self.data` as materialised by `create_default_knowledge_base` (the shipped
repository has no `backend/data/agricultural_data.json`, so this is the data
the engine runs on). -/
def default_data : KBData where
  categories := [(enc "crop_planning", crop_planning), (enc "soil_management", soil_management)]
  common_questions :=
    [(enc "greetings",
      [(enc "en", [enc "hello", enc "hi", enc "good morning", enc "good evening", enc "namaste"]),
       (enc "hi", [enc "नमस्ते", enc "नमस्कार", enc "हैलो", enc "सुप्रभात", enc "शुभ संध्या"])]),
     (enc "help",
      [(enc "en", [enc "help", enc "what can you do", enc "how to use", enc "assistance"]),
       (enc "hi", [enc "सहायता", enc "मदद", enc "आप क्या कर सकते हैं", enc "कैसे उपयोग करें"])])]
  responses :=
    [(enc "greetings",
      [(enc "en", enc "Hello! I\x27m your agricultural advisor. You can ask me about crop timing, soil management, irrigation, pest control, fertilizers, and weather-related farming questions. How can I help you today?"),
       (enc "hi", enc "नमस्ते! मैं आपका कृषि सलाहकार हूं। आप मुझसे फसल का समय, मिट्टी प्रबंधन, सिंचाई, कीट नियंत्रण, उर्वरक, और मौसम संबंधी खेती के प्रश्न पूछ सकते हैं। आज मैं आपकी कैसे सहायता कर सकता हूं?")]),
     (enc "help",
      [(enc "en", enc "I can help you with:\n• Crop planting times and seasons\n• Soil management and testing\n• Irrigation and water management\n• Pest and disease control\n• Fertilizer recommendations\n• Weather adaptation strategies\n\nJust ask your question in English or Hindi!"),
       (enc "hi", enc "मैं इन विषयों में आपकी सहायता कर सकता हूं:\n• फसल लगाने का समय और मौसम\n• मिट्टी प्रबंधन और परीक्षण\n• सिंचाई और जल प्रबंधन\n• कीट और रोग नियंत्रण\n• उर्वरक सिफारिशें\n• मौसम अनुकूलन रणनीतियां\n\nअपना प्रश्न अंग्रेजी या हिंदी में पूछें!")]),
     (enc "not_found",
      [(enc "en", enc "I\x27m sorry, I don\x27t have specific information about that topic in my knowledge base. Could you please rephrase your question or ask about crop planning, soil management, irrigation, pest control, fertilizers, or weather-related farming topics?"),
       (enc "hi", enc "क्षमा करें, मेरे ज्ञान आधार में उस विषय के बारे में विशिष्ट जानकारी नहीं है। कृपया अपना प्रश्न दूसरे तरीके से पूछें या फसल योजना, मिट्टी प्रबंधन, सिंचाई, कीट नियंत्रण, उर्वरक, या मौसम संबंधी खेती के विषयों के बारे में पूछें।")])]

/-- One step of `build_search_index`: append a reference to the bucket of
`key`, creating the bucket at the end of the dict if it is new. -/
def indexAdd (idx : List (Str × List Ref)) (key : Str) (r : Ref) : List (Str × List Ref) :=
  match alookup idx key with
  | some _ => idx.map (fun kv => if kv.1 = key then (kv.1, kv.2 ++ [r]) else kv)
  | none => idx ++ [(key, [r])]

/-- `KnowledgeBase.build_search_index`: for every category, entry and keyword,
index the entry under `normalize_text(keyword.lower())`. -/
def build_search_index (d : KBData) : List (Str × List Ref) :=
  d.categories.foldl (fun idx ckv =>
    ckv.2.entries.foldl (fun idx e =>
      e.keywords.foldl (fun idx kw =>
        indexAdd idx (normalize_text (lowerStr kw)) ⟨ckv.1, e.eid, e⟩) idx) idx) []

/-- `self.keywords_index` for the default knowledge base. -/
def default_index : List (Str × List Ref) := build_search_index default_data

/-- Length of the common prefix of two strings. -/
def commonPrefixLen : Str → Str → Nat
  | a :: as, b :: bs => if a = b then commonPrefixLen as bs + 1 else 0
  | _, _ => 0

/-- Length of the matching run of `a` and `b` starting at positions `i`, `j`. -/
def runLen (a b : Str) (i j : Nat) : Nat := commonPrefixLen (a.drop i) (b.drop j)

/-- The best matching block starting at row `i` of `a`: the pair `(i, j, k)`
with maximal run length `k`, the smallest such `j` first. -/
def bestInRow (a b : Str) (i : Nat) : Nat × Nat × Nat :=
  (List.range b.length).foldl (fun best j =>
    let k := runLen a b i j
    if best.2.2 < k then (i, j, k) else best) (i, 0, 0)

/-- Keep the left block unless the right one is strictly longer (so the
earliest maximal block wins). -/
def mergeBlocks (l r : Nat × Nat × Nat) : Nat × Nat × Nat :=
  if l.2.2 < r.2.2 then r else l

/-- One pass of pairwise merging (balanced reduction keeps evaluation depth
logarithmic, which plain `foldl` over all rows would not). -/
def mergePairs : List (Nat × Nat × Nat) → List (Nat × Nat × Nat)
  | [] => []
  | [x] => [x]
  | x :: y :: rest => mergeBlocks x y :: mergePairs rest

/-- Balanced left-biased reduction of a list of blocks; the fuel only bounds
the number of halving passes and is never exhausted when it is at least the
list length. -/
def reduceBlocks : Nat → List (Nat × Nat × Nat) → Nat × Nat × Nat
  | 0, _ => (0, 0, 0)
  | _, [] => (0, 0, 0)
  | _, [x] => x
  | fuel + 1, xs => reduceBlocks fuel (mergePairs xs)

/-- `SequenceMatcher.find_longest_match` (no junk set, as the strings are
shorter than 200 characters): the longest matching block `(i, j, k)`, ties
broken by the smallest `i`, then the smallest `j` — the documented difflib
result, computed as a left-biased maximum over all start pairs. -/
def findLongestMatch (a b : Str) : Nat × Nat × Nat :=
  reduceBlocks a.length ((List.range a.length).map (bestInRow a b))

/-- Recursive decomposition behind `get_matching_blocks`, summed: the total
number of matched characters (`sum(block.size)`).  The fuel argument only
bounds the recursion depth; `matchesTotal` supplies enough fuel that it is
never exhausted (each recursive call strictly shrinks the combined length). -/
def matchingBlocksSum : Nat → Str → Str → Nat
  | 0, _, _ => 0
  | fuel + 1, a, b =>
    let ijk := findLongestMatch a b
    if ijk.2.2 == 0 then 0
    else
      matchingBlocksSum fuel (a.take ijk.1) (b.take ijk.2.1) + ijk.2.2 +
        matchingBlocksSum fuel (a.drop (ijk.1 + ijk.2.2)) (b.drop (ijk.2.1 + ijk.2.2))

/-- `M`: total size of all matching blocks of `a` and `b`. -/
def matchesTotal (a b : Str) : Nat := matchingBlocksSum (a.length + b.length + 1) a b

/-- The data determining `SequenceMatcher.ratio()`: total matched size and
combined length. -/
def ratioPair (a b : Str) : Nat × Nat := (matchesTotal a b, a.length + b.length)

/-- The rational value of a similarity pair: `2*M / T`, and 1 when `T = 0`
(difflib `_calculate_ratio`). -/
def simVal (p : Nat × Nat) : ℚ :=
  if p.2 = 0 then 1 else (2 * p.1 : ℚ) / (p.2 : ℚ)

/-- `SequenceMatcher.ratio()` of two strings, as a rational. -/
def ratioQ (a b : Str) : ℚ := simVal (ratioPair a b)

/-- The comparison `ratio > 0.3` on similarity pairs, by cross-multiplication
(kept in integers; `ratioGtThreshold p = true ↔ 3/10 < simVal p`). -/
def ratioGtThreshold (p : Nat × Nat) : Bool :=
  if p.2 == 0 then true else decide (3 * p.2 < 20 * p.1)

/-- The body of the keyword loop in `search_entries`: append the match derived
from a reference unless it is already present. -/
def addRef (ms : List MatchR) (r : Ref) : List MatchR :=
  let m : MatchR := ⟨r.category, r.entry_id, r.entry, none⟩
  if m ∈ ms then ms else ms ++ [m]

/-- The keyword pass of `search_entries`: for each whitespace token of the
(already normalized) question, collect the entries indexed under it. -/
def keyword_matches (idx : List (Str × List Ref)) (question : Str) : List MatchR :=
  (splitWs question).foldl (fun ms w =>
    match alookup idx w with
    | some bucket => bucket.foldl addRef ms
    | none => ms) []

/-- The body of the pattern loop in `search_by_patterns`: keep the pair when
its similarity exceeds the 0.3 threshold (`if similarity > 0.3`). -/
def fuzzyPattern (question cid : Str) (e : Entry) (ms : List MatchR) (pat : Str) : List MatchR :=
  let pattern_normalized := normalize_text pat
  let similarity := ratioPair question pattern_normalized
  if ratioGtThreshold similarity then ms ++ [⟨cid, e.eid, e, some similarity⟩] else ms

/-- `KnowledgeBase.search_by_patterns`: for every entry, compare the question
against each question variant registered for `lang` (no English fallback). -/
def search_by_patterns (d : KBData) (question lang : Str) : List MatchR :=
  d.categories.foldl (fun ms ckv =>
    ckv.2.entries.foldl (fun ms e =>
      ((alookup e.question lang).getD []).foldl (fuzzyPattern question ckv.1 e) ms) ms) []

/-- `KnowledgeBase.search_entries`: keyword pass; fuzzy pass only if the
keyword pass found nothing. -/
def search_entries (d : KBData) (idx : List (Str × List Ref)) (question lang : Str) :
    List MatchR :=
  let kmatches := keyword_matches idx question
  if kmatches.isEmpty then search_by_patterns d question lang else kmatches

/-- Python `p in text` (contiguous substring), prefix part. -/
def isPrefixL : Str → Str → Bool
  | [], _ => true
  | _ :: _, [] => false
  | a :: as, b :: bs => a == b && isPrefixL as bs

/-- Python `p in text` (contiguous substring). -/
def isSubstr (p s : Str) : Bool :=
  match s with
  | [] => p.isEmpty
  | _ :: rest => isPrefixL p s || isSubstr p rest

/-- `KnowledgeBase.is_greeting`: some greeting trigger of `lang` or of English,
normalized, occurs as a substring of the (normalized) text. -/
def is_greeting (d : KBData) (text lang : Str) : Bool :=
  let greetings := (alookup d.common_questions (enc "greetings")).getD []
  let greeting_words := ((alookup greetings lang).getD []) ++ ((alookup greetings (enc "en")).getD [])
  greeting_words.any (fun g => isSubstr (normalize_text g) text)

/-- `KnowledgeBase.is_help_request`: same as `is_greeting` for `help`. -/
def is_help_request (d : KBData) (text lang : Str) : Bool :=
  let help_words := (alookup d.common_questions (enc "help")).getD []
  let help_patterns := ((alookup help_words lang).getD []) ++ ((alookup help_words (enc "en")).getD [])
  help_patterns.any (fun p => isSubstr (normalize_text p) text)

/-- `KnowledgeBase.get_response`: `responses[type][lang]`, falling back to
English, falling back to the hardcoded apology. -/
def get_response (d : KBData) (response_type lang : Str) : Str :=
  let response_data := (alookup d.responses response_type).getD []
  (alookup response_data lang).getD ((alookup response_data (enc "en")).getD
    (enc "I apologize, but I cannot help with that right now."))

/-- The answer-resolution expression of `get_answer`:
the answer dict of the entry looked up at the language, falling back to the
English text, falling back to the empty string. -/
def answerText (e : Entry) (lang : Str) : Str :=
  (alookup e.answer lang).getD ((alookup e.answer (enc "en")).getD [])

/-- `KnowledgeBase.get_answer`: empty-after-strip guard, greeting and help
intent short-circuits, then `search_entries`; the first match wins, else the
`not_found` response. -/
def get_answer (d : KBData) (idx : List (Str × List Ref)) (question lang : Str) : Str :=
  if question.all isSpaceC then get_response d (enc "not_found") lang
  else
    let question_normalized := normalize_text question
    if is_greeting d question_normalized lang then get_response d (enc "greetings") lang
    else if is_help_request d question_normalized lang then get_response d (enc "help") lang
    else
      match search_entries d idx question_normalized lang with
      | [] => get_response d (enc "not_found") lang
      | best_match :: _ => answerText best_match.entry lang

/-- The mutable state of a `KnowledgeBase` instance after construction. -/
structure KBState where
  data : KBData
  categories : List Str
  keywords_index : List (Str × List Ref)
deriving DecidableEq

/-- `get_answer` as a state transformer on the `KnowledgeBase` instance: the
method only reads `self.data` and `self.keywords_index` (no attribute of
`self` is assigned anywhere on its call path), so its translation returns the
state unchanged alongside the answer. -/
def get_answer_st (st : KBState) (question lang : Str) : Str × KBState :=
  (get_answer st.data st.keywords_index question lang, st)

theorem alookup_mem {α β : Type} [DecidableEq α] (l : List (α × β)) (k : α) (v : β)
    (h : alookup l k = some v) : (k, v) ∈ l := by
  induction l with
  | nil => simp [alookup] at h
  | cons kv rest ih =>
    rw [alookup] at h
    by_cases hk : kv.1 = k
    · rw [if_pos hk] at h
      injection h with h2
      have : kv = (k, v) := by cases kv; simp_all
      rw [← this]
      exact List.mem_cons_self _ _
    · rw [if_neg hk] at h
      exact List.mem_cons_of_mem _ (ih h)

theorem alookup_none_of_keys_ge {β : Type} (l : List (Nat × β)) (B c : Nat)
    (hk : ∀ kv ∈ l, B ≤ kv.1) (hc : c < B) : alookup l c = none := by
  induction l with
  | nil => rfl
  | cons kv rest ih =>
    have h1 := hk kv (List.mem_cons_self _ _)
    rw [alookup, if_neg (by omega : ¬ kv.1 = c)]
    exact ih (fun kv2 h2 => hk kv2 (List.mem_cons_of_mem _ h2))

theorem nfkdTable_keys_ge : ∀ kv ∈ nfkdTable, 192 ≤ kv.1 := by decide

theorem cccTable_keys_ge : ∀ kv ∈ cccTable, 768 ≤ kv.1 := by decide

theorem nfkdTable_img_stable : ∀ kv ∈ nfkdTable, ∀ c ∈ kv.2, alookup nfkdTable c = none := by
  decide

theorem word_not_space (c : Nat) (h : isWordC c = true) : isSpaceC c = false := by
  simp [isWordC] at h
  simp [isSpaceC]
  omega

theorem toLowerC_idem (c : Nat) : toLowerC (toLowerC c) = toLowerC c := by
  unfold toLowerC
  split_ifs <;> omega

theorem word_toLowerC (c : Nat) (h : isWordC c = true) : isWordC (toLowerC c) = true := by
  simp [isWordC] at h ⊢
  unfold toLowerC
  split_ifs <;> omega

theorem nfkdC_stable_of_img (x c : Nat) (h : c ∈ nfkdC x) : nfkdC c = [c] := by
  unfold nfkdC at h ⊢
  cases hx : alookup nfkdTable x with
  | none =>
    rw [hx] at h
    simp at h
    subst h
    rw [hx]
    rfl
  | some v =>
    rw [hx] at h
    simp at h
    rw [nfkdTable_img_stable (x, v) (alookup_mem _ _ _ hx) c h]
    rfl

theorem nfkdC_toLowerC (c : Nat) (hst : nfkdC c = [c]) (_hw : isWordC c = true) :
    nfkdC (toLowerC c) = [toLowerC c] := by
  by_cases h : 65 ≤ c ∧ c ≤ 90
  · have ht : toLowerC c = c + 32 := by simp [toLowerC, h]
    rw [ht]
    unfold nfkdC
    rw [alookup_none_of_keys_ge _ 192 _ nfkdTable_keys_ge (by omega)]
    rfl
  · have ht : toLowerC c = c := by simp [toLowerC, h]
    rw [ht]
    exact hst

theorem cccC_toLowerC (c : Nat) (h0 : cccC c = 0) (_hw : isWordC c = true) :
    cccC (toLowerC c) = 0 := by
  by_cases h : 65 ≤ c ∧ c ≤ 90
  · have ht : toLowerC c = c + 32 := by simp [toLowerC, h]
    rw [ht]
    unfold cccC
    rw [alookup_none_of_keys_ge _ 768 _ cccTable_keys_ge (by omega)]
    rfl
  · have ht : toLowerC c = c := by simp [toLowerC, h]
    rw [ht]
    exact h0

theorem splitWsAux_tok_ne_nil : ∀ (s acc : Str), ∀ t ∈ splitWsAux s acc, t ≠ [] := by
  intro s
  induction s with
  | nil =>
    intro acc t ht
    rw [splitWsAux] at ht
    by_cases he : acc.isEmpty
    · simp [he] at ht
    · simp [he] at ht
      subst ht
      simpa using he
  | cons c rest ih =>
    intro acc t ht
    rw [splitWsAux] at ht
    by_cases hs : isSpaceC c
    · rw [if_pos hs] at ht
      by_cases he : acc.isEmpty
      · rw [if_pos he] at ht
        exact ih [] t ht
      · rw [if_neg he] at ht
        rcases List.mem_cons.mp ht with h1 | h2
        · subst h1
          simpa using he
        · exact ih [] t h2
    · rw [if_neg hs] at ht
      exact ih (acc ++ [c]) t ht

theorem splitWsAux_chars (P : Nat → Prop) :
    ∀ (s acc : Str), (∀ c ∈ s, P c) → (∀ c ∈ acc, P c) →
    ∀ t ∈ splitWsAux s acc, ∀ c ∈ t, P c := by
  intro s
  induction s with
  | nil =>
    intro acc _ hacc t ht
    rw [splitWsAux] at ht
    by_cases he : acc.isEmpty
    · simp [he] at ht
    · simp [he] at ht
      subst ht
      exact hacc
  | cons c rest ih =>
    intro acc hs hacc t ht
    have hrest : ∀ x ∈ rest, P x := fun x hx => hs x (List.mem_cons_of_mem _ hx)
    rw [splitWsAux] at ht
    by_cases hsp : isSpaceC c
    · rw [if_pos hsp] at ht
      by_cases he : acc.isEmpty
      · rw [if_pos he] at ht
        exact ih [] hrest (by simp) t ht
      · rw [if_neg he] at ht
        rcases List.mem_cons.mp ht with h1 | h2
        · subst h1
          exact hacc
        · exact ih [] hrest (by simp) t h2
    · rw [if_neg hsp] at ht
      refine ih (acc ++ [c]) hrest ?_ t ht
      intro x hx
      rcases List.mem_append.mp hx with h1 | h2
      · exact hacc x h1
      · have hxc : x = c := by simpa using h2
        rw [hxc]
        exact hs c (List.mem_cons_self _ _)

theorem splitWsAux_nonspace : ∀ (s acc : Str), (∀ c ∈ acc, isSpaceC c = false) →
    ∀ t ∈ splitWsAux s acc, ∀ c ∈ t, isSpaceC c = false := by
  intro s
  induction s with
  | nil =>
    intro acc hacc t ht
    rw [splitWsAux] at ht
    by_cases he : acc.isEmpty
    · simp [he] at ht
    · simp [he] at ht
      subst ht
      exact hacc
  | cons c rest ih =>
    intro acc hacc t ht
    rw [splitWsAux] at ht
    by_cases hsp : isSpaceC c
    · rw [if_pos hsp] at ht
      by_cases he : acc.isEmpty
      · rw [if_pos he] at ht
        exact ih [] (by simp) t ht
      · rw [if_neg he] at ht
        rcases List.mem_cons.mp ht with h1 | h2
        · subst h1
          exact hacc
        · exact ih [] (by simp) t h2
    · rw [if_neg hsp] at ht
      refine ih (acc ++ [c]) ?_ t ht
      intro x hx
      rcases List.mem_append.mp hx with h1 | h2
      · exact hacc x h1
      · have hxc : x = c := by simpa using h2
        rw [hxc]
        simpa using hsp

theorem mem_joinWithSpace : ∀ (ts : List Str) (c : Nat), c ∈ joinWithSpace ts →
    (∃ t ∈ ts, c ∈ t) ∨ c = 32 := by
  intro ts
  induction ts with
  | nil => intro c hc; simp [joinWithSpace] at hc
  | cons t ts2 ih =>
    cases ts2 with
    | nil =>
      intro c hc
      rw [joinWithSpace] at hc
      exact Or.inl ⟨t, by simp, hc⟩
    | cons t2 ts3 =>
      intro c hc
      replace hc : c ∈ t ++ 32 :: joinWithSpace (t2 :: ts3) := hc
      rcases List.mem_append.mp hc with h1 | h2
      · exact Or.inl ⟨t, by simp, h1⟩
      · rcases List.mem_cons.mp h2 with h3 | h4
        · exact Or.inr h3
        · rcases ih c h4 with ⟨u, hu, hcu⟩ | h5
          · exact Or.inl ⟨u, List.mem_cons_of_mem _ hu, hcu⟩
          · exact Or.inr h5

theorem map_joinWithSpace (f : Nat → Nat) (hf : f 32 = 32) :
    ∀ ts : List Str, (joinWithSpace ts).map f = joinWithSpace (ts.map (List.map f)) := by
  intro ts
  induction ts with
  | nil => rfl
  | cons t ts2 ih =>
    cases ts2 with
    | nil => rfl
    | cons t2 ts3 =>
      show (t ++ 32 :: joinWithSpace (t2 :: ts3)).map f = _
      rw [List.map_append, List.map_cons, hf, ih]
      rfl

theorem splitWsAux_append (t rest acc : Str) (h : ∀ c ∈ t, isSpaceC c = false) :
    splitWsAux (t ++ rest) acc = splitWsAux rest (acc ++ t) := by
  induction t generalizing acc with
  | nil => simp
  | cons c t2 ih =>
    have hc : isSpaceC c = false := h c (List.mem_cons_self _ _)
    show splitWsAux (c :: (t2 ++ rest)) acc = _
    rw [splitWsAux, if_neg (by simp [hc])]
    rw [ih (acc ++ [c]) (fun x hx => h x (List.mem_cons_of_mem _ hx))]
    rw [List.append_assoc]
    rfl

theorem splitWs_joinWithSpace : ∀ ts : List Str, (∀ t ∈ ts, t ≠ []) →
    (∀ t ∈ ts, ∀ c ∈ t, isSpaceC c = false) → splitWs (joinWithSpace ts) = ts := by
  intro ts
  induction ts with
  | nil => intro _ _; rfl
  | cons t ts2 ih =>
    intro hne hns
    have htne : t ≠ [] := hne t (List.mem_cons_self _ _)
    have htns : ∀ c ∈ t, isSpaceC c = false := hns t (List.mem_cons_self _ _)
    cases ts2 with
    | nil =>
      show splitWs t = [t]
      unfold splitWs
      have := splitWsAux_append t [] [] htns
      simp at this
      rw [this, splitWsAux, if_neg (by simpa using htne)]
    | cons t2 ts3 =>
      show splitWsAux (t ++ 32 :: joinWithSpace (t2 :: ts3)) [] = t :: t2 :: ts3
      rw [splitWsAux_append t _ [] htns]
      simp only [List.nil_append]
      rw [splitWsAux, if_pos (by decide), if_neg (by simpa using htne)]
      have := ih (fun u hu => hne u (List.mem_cons_of_mem _ hu))
        (fun u hu => hns u (List.mem_cons_of_mem _ hu))
      unfold splitWs at this
      rw [this]

theorem flatten_nfkd_eq_self (l : Str) (h : ∀ c ∈ l, nfkdC c = [c]) :
    (l.map nfkdC).flatten = l := by
  induction l with
  | nil => rfl
  | cons c rest ih =>
    rw [List.map_cons, List.flatten_cons, h c (List.mem_cons_self _ _),
      ih (fun x hx => h x (List.mem_cons_of_mem _ hx))]
    rfl

theorem filter_eq_self_of (l : Str) (p : Nat → Bool) (h : ∀ c ∈ l, p c = true) :
    l.filter p = l := by
  induction l with
  | nil => rfl
  | cons c rest ih =>
    rw [List.filter_cons_of_pos (h c (List.mem_cons_self _ _)),
      ih (fun x hx => h x (List.mem_cons_of_mem _ hx))]

theorem map_eq_self_of (l : Str) (f : Nat → Nat) (h : ∀ c ∈ l, f c = c) :
    l.map f = l := by
  induction l with
  | nil => rfl
  | cons c rest ih =>
    rw [List.map_cons, h c (List.mem_cons_self _ _),
      ih (fun x hx => h x (List.mem_cons_of_mem _ hx))]

theorem cleaned_chars (s : Str) : ∀ c ∈ cleaned s,
    isSpaceC c = true ∨ (isWordC c = true ∧ nfkdC c = [c] ∧ cccC c = 0) := by
  intro c hc
  rcases List.mem_map.mp hc with ⟨d, hd, hdc⟩
  have hfd := List.mem_filter.mp hd
  have hccc : cccC d = 0 := by simpa using hfd.2
  have hst : nfkdC d = [d] := by
    rcases List.mem_flatten.mp hfd.1 with ⟨lx, hlx, hdlx⟩
    rcases List.mem_map.mp hlx with ⟨x, _, hxl⟩
    exact nfkdC_stable_of_img x d (by rw [← hxl] at hdlx; exact hdlx)
  by_cases hw : isWordC d = true
  · have hcd : c = d := by rw [← hdc]; simp [hw]
    rw [hcd]
    exact Or.inr ⟨hw, hst, hccc⟩
  · by_cases hsp : isSpaceC d = true
    · have hcd : c = d := by rw [← hdc]; simp [hsp]
      rw [hcd]
      exact Or.inl hsp
    · have hw2 : isWordC d = false := by simpa using hw
      have hsp2 : isSpaceC d = false := by simpa using hsp
      have hc32 : c = 32 := by rw [← hdc]; simp [hw2, hsp2]
      rw [hc32]
      exact Or.inl (by decide)

theorem normalize_as_join (s : Str) :
    normalize_text s = joinWithSpace ((splitWs (cleaned s)).map lowerStr) := by
  show lowerStr (joinWithSpace (splitWs (cleaned s))) = _
  rw [show lowerStr (joinWithSpace (splitWs (cleaned s))) =
    (joinWithSpace (splitWs (cleaned s))).map toLowerC from rfl]
  rw [map_joinWithSpace toLowerC (by decide)]
  rfl

theorem normalize_token_facts (s : Str) : ∀ t ∈ (splitWs (cleaned s)).map lowerStr,
    t ≠ [] ∧ ∀ c ∈ t, isWordC c = true ∧ isSpaceC c = false ∧ nfkdC c = [c] ∧
      cccC c = 0 ∧ toLowerC c = c := by
  intro t ht
  rcases List.mem_map.mp ht with ⟨t0, ht0, ht0t⟩
  have ht0ne : t0 ≠ [] := splitWsAux_tok_ne_nil (cleaned s) [] t0 ht0
  have ht0src : ∀ c ∈ t0, c ∈ cleaned s :=
    splitWsAux_chars (· ∈ cleaned s) (cleaned s) [] (fun c hc => hc) (by simp) t0 ht0
  have ht0ns : ∀ c ∈ t0, isSpaceC c = false :=
    splitWsAux_nonspace (cleaned s) [] (by simp) t0 ht0
  constructor
  · rw [← ht0t]
    intro hnil
    apply ht0ne
    cases t0 with
    | nil => rfl
    | cons a as => simp [lowerStr] at hnil
  · intro c hc
    rw [← ht0t] at hc
    rcases List.mem_map.mp hc with ⟨d, hd, hdc⟩
    have hdgood : isWordC d = true ∧ nfkdC d = [d] ∧ cccC d = 0 := by
      rcases cleaned_chars s d (ht0src d hd) with hsp | hg
      · rw [ht0ns d hd] at hsp
        exact absurd hsp (by simp)
      · exact hg
    rw [← hdc]
    refine ⟨word_toLowerC d hdgood.1, word_not_space _ (word_toLowerC d hdgood.1),
      nfkdC_toLowerC d hdgood.2.1 hdgood.1, cccC_toLowerC d hdgood.2.2 hdgood.1,
      toLowerC_idem d⟩

/-- C8: text normalization is idempotent — for every string `x`,
`normalize_text (normalize_text x) = normalize_text x`, where `normalize_text`
decomposes Unicode, strips combining marks, replaces non-word non-whitespace
characters with a space, collapses and trims whitespace, and lowercases. -/
theorem c8_normalize_idempotent (s : Str) :
    normalize_text (normalize_text s) = normalize_text s := by
  have hyeq : normalize_text s = joinWithSpace ((splitWs (cleaned s)).map lowerStr) :=
    normalize_as_join s
  have h2 := normalize_token_facts s
  have hychar : ∀ c ∈ normalize_text s, c = 32 ∨ (isWordC c = true ∧ isSpaceC c = false ∧
      nfkdC c = [c] ∧ cccC c = 0 ∧ toLowerC c = c) := by
    rw [hyeq]
    intro c hc
    rcases mem_joinWithSpace _ c hc with ⟨t, ht, hct⟩ | h32
    · exact Or.inr ((h2 t ht).2 c hct)
    · exact Or.inl h32
  have e1 : ((normalize_text s).map nfkdC).flatten = normalize_text s := by
    refine flatten_nfkd_eq_self _ (fun c hc => ?_)
    rcases hychar c hc with h32 | hg
    · rw [h32]; decide
    · exact hg.2.2.1
  have e2 : (normalize_text s).filter (fun c => cccC c == 0) = normalize_text s := by
    refine filter_eq_self_of _ _ (fun c hc => ?_)
    rcases hychar c hc with h32 | hg
    · rw [h32]; decide
    · simp [hg.2.2.2.1]
  have e3 : (normalize_text s).map (fun c => if isWordC c || isSpaceC c then c else 32) =
      normalize_text s := by
    refine map_eq_self_of _ _ (fun c hc => ?_)
    rcases hychar c hc with h32 | hg
    · rw [h32]; decide
    · simp [hg.1]
  have ecl : cleaned (normalize_text s) = normalize_text s := by
    show ((((normalize_text s).map nfkdC).flatten).filter (fun c => cccC c == 0)).map
      (fun c => if isWordC c || isSpaceC c then c else 32) = normalize_text s
    rw [e1, e2, e3]
  have e4 : splitWs (normalize_text s) = (splitWs (cleaned s)).map lowerStr := by
    rw [hyeq]
    exact splitWs_joinWithSpace _ (fun t ht => (h2 t ht).1)
      (fun t ht c hc => ((h2 t ht).2 c hc).2.1)
  have e5 : lowerStr (normalize_text s) = normalize_text s := by
    refine map_eq_self_of _ _ (fun c hc => ?_)
    rcases hychar c hc with h32 | hg
    · rw [h32]; decide
    · exact hg.2.2.2.2
  show lowerStr (joinWithSpace (splitWs (cleaned (normalize_text s)))) = normalize_text s
  rw [ecl, e4, ← hyeq, e5]

theorem addRef_ne_nil (ms : List MatchR) (r : Ref) : addRef ms r ≠ [] := by
  show (if (⟨r.category, r.entry_id, r.entry, none⟩ : MatchR) ∈ ms then ms
    else ms ++ [⟨r.category, r.entry_id, r.entry, none⟩]) ≠ []
  by_cases hm : (⟨r.category, r.entry_id, r.entry, none⟩ : MatchR) ∈ ms
  · rw [if_pos hm]
    intro hnil
    rw [hnil] at hm
    simp at hm
  · rw [if_neg hm]
    simp

theorem foldl_addRef_of_ne (bucket : List Ref) : ∀ ms : List MatchR, ms ≠ [] →
    bucket.foldl addRef ms ≠ [] := by
  induction bucket with
  | nil => intro ms h; simpa using h
  | cons r rest ih =>
    intro ms _
    show rest.foldl addRef (addRef ms r) ≠ []
    exact ih _ (addRef_ne_nil ms r)

theorem foldl_addRef_ne_nil (bucket : List Ref) (ms : List MatchR)
    (h : ms ≠ [] ∨ bucket ≠ []) : bucket.foldl addRef ms ≠ [] := by
  cases bucket with
  | nil =>
    rcases h with h | h
    · simpa using h
    · exact absurd rfl h
  | cons r rest =>
    show rest.foldl addRef (addRef ms r) ≠ []
    exact foldl_addRef_of_ne rest _ (addRef_ne_nil ms r)

theorem kwfold_ne_nil (idx : List (Str × List Ref)) :
    ∀ (toks : List Str) (ms : List MatchR),
    (ms ≠ [] ∨ ∃ t ∈ toks, ∃ b, alookup idx t = some b ∧ b ≠ []) →
    toks.foldl (fun ms w =>
      match alookup idx w with
      | some bucket => bucket.foldl addRef ms
      | none => ms) ms ≠ [] := by
  intro toks
  induction toks with
  | nil =>
    intro ms h
    rcases h with h | ⟨t, ht, _⟩
    · simpa using h
    · simp at ht
  | cons w rest ih =>
    intro ms h
    show rest.foldl _ (match alookup idx w with
      | some bucket => bucket.foldl addRef ms
      | none => ms) ≠ []
    rcases h with hms | ⟨t, ht, b, hb, hbne⟩
    · refine ih _ (Or.inl ?_)
      cases hl : alookup idx w with
      | some bucket => simpa [hl] using foldl_addRef_of_ne bucket ms hms
      | none => simpa [hl] using hms
    · rcases List.mem_cons.mp ht with h1 | h2
      · subst h1
        refine ih _ (Or.inl ?_)
        rw [hb]
        exact foldl_addRef_ne_nil b ms (Or.inr hbne)
      · exact ih _ (Or.inr ⟨t, h2, b, hb, hbne⟩)

theorem mem_foldl_addRef : ∀ (bucket : List Ref) (ms : List MatchR) (m : MatchR),
    m ∈ bucket.foldl addRef ms →
    m ∈ ms ∨ ∃ r ∈ bucket, m = ⟨r.category, r.entry_id, r.entry, none⟩ := by
  intro bucket
  induction bucket with
  | nil => intro ms m h; exact Or.inl (by simpa using h)
  | cons r rest ih =>
    intro ms m h
    rcases ih (addRef ms r) m h with h1 | ⟨r2, hr2, hm⟩
    · have h2 : m ∈ ms ∨ m = ⟨r.category, r.entry_id, r.entry, none⟩ := by
        revert h1
        show m ∈ (if (⟨r.category, r.entry_id, r.entry, none⟩ : MatchR) ∈ ms then ms
          else ms ++ [⟨r.category, r.entry_id, r.entry, none⟩]) → _
        by_cases hc : (⟨r.category, r.entry_id, r.entry, none⟩ : MatchR) ∈ ms
        · rw [if_pos hc]
          exact Or.inl
        · rw [if_neg hc]
          intro h3
          rcases List.mem_append.mp h3 with h4 | h5
          · exact Or.inl h4
          · exact Or.inr (by simpa using h5)
      rcases h2 with h3 | h3
      · exact Or.inl h3
      · exact Or.inr ⟨r, List.mem_cons_self _ _, h3⟩
    · exact Or.inr ⟨r2, List.mem_cons_of_mem _ hr2, hm⟩

theorem mem_kwfold (idx : List (Str × List Ref)) :
    ∀ (toks : List Str) (ms : List MatchR) (m : MatchR),
    m ∈ toks.foldl (fun ms w =>
      match alookup idx w with
      | some bucket => bucket.foldl addRef ms
      | none => ms) ms →
    m ∈ ms ∨ ∃ kv ∈ idx, ∃ r ∈ kv.2, m = ⟨r.category, r.entry_id, r.entry, none⟩ := by
  intro toks
  induction toks with
  | nil => intro ms m h; exact Or.inl (by simpa using h)
  | cons w rest ih =>
    intro ms m h
    replace h : m ∈ rest.foldl _ (match alookup idx w with
      | some bucket => bucket.foldl addRef ms
      | none => ms) := h
    rcases ih _ m h with h1 | h2
    · cases hl : alookup idx w with
      | some bucket =>
        rw [hl] at h1
        rcases mem_foldl_addRef bucket ms m h1 with h3 | ⟨r, hr, hm⟩
        · exact Or.inl h3
        · exact Or.inr ⟨(w, bucket), alookup_mem _ _ _ hl, r, hr, hm⟩
      | none =>
        rw [hl] at h1
        exact Or.inl h1
    · exact Or.inr h2

theorem mem_keyword_matches (idx : List (Str × List Ref)) (q : Str) (m : MatchR)
    (h : m ∈ keyword_matches idx q) :
    ∃ kv ∈ idx, ∃ r ∈ kv.2, m = ⟨r.category, r.entry_id, r.entry, none⟩ := by
  unfold keyword_matches at h
  rcases mem_kwfold idx (splitWs q) [] m h with h1 | h2
  · simp at h1
  · exact h2

theorem mem_foldl_fuzzyPattern (q cid : Str) (e : Entry) :
    ∀ (pats : List Str) (ms : List MatchR) (m : MatchR),
    m ∈ pats.foldl (fuzzyPattern q cid e) ms →
    m ∈ ms ∨ ∃ pr, m = ⟨cid, e.eid, e, some pr⟩ ∧ ratioGtThreshold pr = true := by
  intro pats
  induction pats with
  | nil => intro ms m h; exact Or.inl (by simpa using h)
  | cons p rest ih =>
    intro ms m h
    rcases ih (fuzzyPattern q cid e ms p) m h with h1 | h2
    · revert h1
      show m ∈ (if ratioGtThreshold (ratioPair q (normalize_text p)) then
        ms ++ [⟨cid, e.eid, e, some (ratioPair q (normalize_text p))⟩] else ms) → _
      by_cases hc : ratioGtThreshold (ratioPair q (normalize_text p)) = true
      · rw [if_pos hc]
        intro h3
        rcases List.mem_append.mp h3 with h4 | h5
        · exact Or.inl h4
        · exact Or.inr ⟨ratioPair q (normalize_text p), by simpa using h5, hc⟩
      · rw [if_neg hc]
        exact Or.inl
    · exact Or.inr h2

theorem mem_entryfold (q cid : Str) (lang : Str) :
    ∀ (es : List Entry) (ms : List MatchR) (m : MatchR),
    m ∈ es.foldl (fun ms e =>
      ((alookup e.question lang).getD []).foldl (fuzzyPattern q cid e) ms) ms →
    m ∈ ms ∨ ∃ e ∈ es, ∃ pr, m = ⟨cid, e.eid, e, some pr⟩ ∧ ratioGtThreshold pr = true := by
  intro es
  induction es with
  | nil => intro ms m h; exact Or.inl (by simpa using h)
  | cons e rest ih =>
    intro ms m h
    rcases ih _ m h with h1 | ⟨e2, he2, pr, hm, hpr⟩
    · rcases mem_foldl_fuzzyPattern q cid e _ ms m h1 with h3 | ⟨pr, hm, hpr⟩
      · exact Or.inl h3
      · exact Or.inr ⟨e, List.mem_cons_self _ _, pr, hm, hpr⟩
    · exact Or.inr ⟨e2, List.mem_cons_of_mem _ he2, pr, hm, hpr⟩

theorem mem_search_by_patterns (d : KBData) (q lang : Str) (m : MatchR)
    (h : m ∈ search_by_patterns d q lang) :
    ∃ ckv ∈ d.categories, ∃ e ∈ ckv.2.entries, ∃ pr,
      m = ⟨ckv.1, e.eid, e, some pr⟩ ∧ ratioGtThreshold pr = true := by
  unfold search_by_patterns at h
  have main : ∀ (cats : List (Str × Category)) (ms : List MatchR),
      m ∈ cats.foldl (fun ms ckv => ckv.2.entries.foldl (fun ms e =>
        ((alookup e.question lang).getD []).foldl (fuzzyPattern q ckv.1 e) ms) ms) ms →
      m ∈ ms ∨ ∃ ckv ∈ cats, ∃ e ∈ ckv.2.entries, ∃ pr,
        m = ⟨ckv.1, e.eid, e, some pr⟩ ∧ ratioGtThreshold pr = true := by
    intro cats
    induction cats with
    | nil => intro ms hm; exact Or.inl (by simpa using hm)
    | cons ckv rest ih =>
      intro ms hm
      rcases ih _ hm with h1 | ⟨ckv2, hc2, e, he, pr, hme, hpr⟩
      · rcases mem_entryfold q ckv.1 lang ckv.2.entries ms m h1 with h3 | ⟨e, he, pr, hme, hpr⟩
        · exact Or.inl h3
        · exact Or.inr ⟨ckv, List.mem_cons_self _ _, e, he, pr, hme, hpr⟩
      · exact Or.inr ⟨ckv2, List.mem_cons_of_mem _ hc2, e, he, pr, hme, hpr⟩
  rcases main d.categories [] h with h1 | h2
  · simp at h1
  · exact h2

theorem ratioGtThreshold_iff (p : Nat × Nat) :
    ratioGtThreshold p = true ↔ (3 : ℚ)/10 < simVal p := by
  unfold ratioGtThreshold simVal
  by_cases h : p.2 = 0
  · simp [h]
    norm_num
  · have hb : (p.2 == 0) = false := by simpa using h
    have hpos : (0 : ℚ) < (p.2 : ℚ) := by
      exact_mod_cast Nat.pos_of_ne_zero h
    rw [if_neg (by simpa using h), if_neg h]
    rw [div_lt_div_iff₀ (by norm_num) hpos]
    rw [show (3 : ℚ) * (p.2 : ℚ) = ((3 * p.2 : ℕ) : ℚ) by push_cast; ring]
    rw [show (2 * (p.1 : ℚ)) * 10 = ((20 * p.1 : ℕ) : ℚ) by push_cast; ring]
    rw [Nat.cast_lt]
    simp

theorem simVal_lt_iff (p q : Nat × Nat) (hp : p.2 ≠ 0) (hq : q.2 ≠ 0) :
    simVal p < simVal q ↔ p.1 * q.2 < q.1 * p.2 := by
  unfold simVal
  rw [if_neg hp, if_neg hq]
  have hppos : (0 : ℚ) < (p.2 : ℚ) := by exact_mod_cast Nat.pos_of_ne_zero hp
  have hqpos : (0 : ℚ) < (q.2 : ℚ) := by exact_mod_cast Nat.pos_of_ne_zero hq
  rw [div_lt_div_iff₀ hppos hqpos]
  rw [show (2 * (p.1 : ℚ)) * (q.2 : ℚ) = ((2 * (p.1 * q.2) : ℕ) : ℚ) by push_cast; ring]
  rw [show (2 * (q.1 : ℚ)) * (p.2 : ℚ) = ((2 * (q.1 * p.2) : ℕ) : ℚ) by push_cast; ring]
  rw [Nat.cast_lt]
  omega

theorem length_pos_getD (rd : List (Str × Str)) (k : Str) (dflt : Str)
    (h : ∀ kv ∈ rd, 0 < kv.2.length) (hd : 0 < dflt.length) :
    0 < ((alookup rd k).getD dflt).length := by
  cases hl : alookup rd k with
  | none => simpa using hd
  | some v =>
    have := h (k, v) (alookup_mem _ _ _ hl)
    simpa using this

/-- C9: `get_answer` is deterministic — for a fixed loaded knowledge-base state,
two calls with the same `(question, language)` pair return the same answer
string, and neither call modifies the knowledge-base data, category list, or
keyword index (the state after a call is the state before it).  This holds by
construction of the embedding: the method assigns no attribute of `self` on its
call path, so its state transformer returns the state unchanged. -/
theorem c9_get_answer_deterministic_pure (st : KBState) (q lang : Str) :
    (get_answer_st st q lang).2 = st ∧
    (get_answer_st st q lang).1 = (get_answer_st ((get_answer_st st q lang).2) q lang).1 :=
  ⟨rfl, rfl⟩

/-- C10: the keyword pass can never match a keyword whose normalized form
contains internal whitespace — `str.split()` produces tokens free of
whitespace characters, and each token is looked up whole against the index,
so a multi-word key is never equal to any token of any question. -/
theorem c10_multiword_keyword_unreachable :
    ∀ kw : Str, (∃ c ∈ kw, isSpaceC c = true) → ∀ q : Str, kw ∉ splitWs q := by
  intro kw h q hmem
  obtain ⟨c, hc, hsp⟩ := h
  have := splitWsAux_nonspace q [] (by simp) kw hmem c hc
  rw [this] at hsp
  exact Bool.noConfusion hsp

/-- Witness for C10, at the real multi-word index key `soil test`: its
normalized form contains a space, and it is not a token of (for example) a
question that even contains it verbatim. -/
theorem c10_multiword_keyword_unreachable_witness :
    (∃ c ∈ normalize_text (lowerStr (enc "soil test")), isSpaceC c = true) ∧
    normalize_text (lowerStr (enc "soil test")) ∉ splitWs (enc "how is my soil test") :=
  ⟨by decide, c10_multiword_keyword_unreachable _ (by decide) _⟩

/-- C7 counterexample: the question `"!!!"` is empty after normalization, yet
the guard that short-circuits to `not_found` (which tests the raw question,
`if not question.strip()`) does not fire, so the keyword and fuzzy passes do
run; on the shipped knowledge base the result is still the `not_found`
response. -/
theorem c7_counterexample :
    normalize_text (enc "!!!") = [] ∧
    (enc "!!!").all isSpaceC = false ∧
    get_answer default_data default_index (enc "!!!") (enc "en") =
      get_response default_data (enc "not_found") (enc "en") :=
  ⟨by decide, by decide, by decide⟩

/-- C7 amended: a question that is empty or whitespace-only before
normalization is answered with the `not_found` response immediately (the
passes are skipped); in particular the empty question in English yields
`not_found`.  (A question that becomes empty only after normalization is not
short-circuited: the passes run, as the counterexample shows.) -/
theorem c7_blank_question_not_found :
    (∀ (d : KBData) (idx : List (Str × List Ref)) (q lang : Str),
      q.all isSpaceC = true →
      get_answer d idx q lang = get_response d (enc "not_found") lang) ∧
    get_answer default_data default_index (enc "") (enc "en") =
      get_response default_data (enc "not_found") (enc "en") := by
  constructor
  · intro d idx q lang h
    unfold get_answer
    rw [if_pos h]
  · decide

/-- Witness for the amended theorem of C7 at a whitespace-only question. -/
theorem c7_blank_question_not_found_witness :
    get_answer default_data default_index (enc " ") (enc "hi") =
      get_response default_data (enc "not_found") (enc "hi") :=
  c7_blank_question_not_found.1 _ _ _ _ (by decide)

/-- C5: if any whitespace token of the normalized question is a key of the
keyword index, the search result is the result of the keyword pass — the fuzzy pass
is not consulted and cannot override it (and the keyword result is nonempty,
since index buckets are nonempty by construction). -/
theorem c5_keyword_precedence :
    ∀ (q lang : Str),
    (∃ t ∈ splitWs (normalize_text q), (alookup default_index t).isSome = true) →
    search_entries default_data default_index (normalize_text q) lang =
      keyword_matches default_index (normalize_text q) ∧
    keyword_matches default_index (normalize_text q) ≠ [] := by
  intro q lang h
  obtain ⟨t, ht, hsome⟩ := h
  obtain ⟨b, hb⟩ := Option.isSome_iff_exists.mp hsome
  have hbne : b ≠ [] := by
    have hmem := alookup_mem _ _ _ hb
    have hall : ∀ kv ∈ default_index, kv.2 ≠ [] := by decide
    exact hall (t, b) hmem
  have hne : keyword_matches default_index (normalize_text q) ≠ [] := by
    unfold keyword_matches
    exact kwfold_ne_nil default_index (splitWs (normalize_text q)) []
      (Or.inr ⟨t, ht, b, hb, hbne⟩)
  refine ⟨?_, hne⟩
  unfold search_entries
  rcases hk : keyword_matches default_index (normalize_text q) with _ | ⟨m, ms⟩
  · exact absurd hk hne
  · rfl

/-- Witness for C5 at the question `"rice"` in English. -/
theorem c5_keyword_precedence_witness :
    search_entries default_data default_index (normalize_text (enc "rice")) (enc "en") =
      keyword_matches default_index (normalize_text (enc "rice")) ∧
    keyword_matches default_index (normalize_text (enc "rice")) ≠ [] :=
  c5_keyword_precedence (enc "rice") (enc "en") (by decide)

/-- C2 counterexample: `"soil test"` is a keyword of the `soil_testing` entry,
but a question consisting solely of it (normalized) is not found via the
keyword pass at all (the normalized key contains a space, the question
tokens do not), and `get_answer` in fact returns the `wheat_cultivation`
answer via the fuzzy pass (the first pair above the 0.3 threshold in
iteration order is a wheat pattern). -/
theorem c2_counterexample :
    enc "soil test" ∈ soil_testing.keywords ∧
    keyword_matches default_index (normalize_text (lowerStr (enc "soil test"))) = [] ∧
    get_answer default_data default_index (normalize_text (lowerStr (enc "soil test")))
        (enc "en") = answerText wheat_cultivation (enc "en") ∧
    answerText wheat_cultivation (enc "en") ≠ answerText soil_testing (enc "en") :=
  ⟨by decide, by decide, by decide, by decide⟩

/-- C2 amended: for every entry `E` of the (default) knowledge base and every
keyword `k` of `E` whose normalized form is a nonempty single token (no
whitespace characters — which excludes `"soil test"`, `"मिट्टी जांच"`, and every
Hindi keyword whose normalized form is split by the stripping of matras),
`get_answer` on the normalized keyword returns the answer of `E` via the keyword
pass. -/
theorem c2_single_token_keyword_found :
    ∀ ckv ∈ default_data.categories, ∀ e ∈ ckv.2.entries, ∀ k ∈ e.keywords,
    (∀ c ∈ normalize_text (lowerStr k), isSpaceC c = false) →
    normalize_text (lowerStr k) ≠ [] →
    get_answer default_data default_index (normalize_text (lowerStr k)) (enc "en") =
      answerText e (enc "en") := by
  decide

/-- Witness for the amended theorem of C2 at the entry `rice_planting_time` and its
keyword `"rice"`. -/
theorem c2_single_token_keyword_found_witness :
    get_answer default_data default_index (normalize_text (lowerStr (enc "rice")))
      (enc "en") = answerText rice_planting_time (enc "en") :=
  c2_single_token_keyword_found (enc "crop_planning", crop_planning) (by decide)
    rice_planting_time (by decide) (enc "rice") (by decide) (by decide) (by decide)

/-- C3 counterexample: for the unknown language `"fr"`, the fuzzy pass uses no
English question variants — it produces no matches for `"planting season"`,
although the same question under `"en"` fuzzy-matches the rice entry; the
overall answer for `"fr"` is the English `not_found` text, not the rice
answer the claim would predict. -/
theorem c3_counterexample :
    search_by_patterns default_data (normalize_text (enc "planting season")) (enc "fr") = [] ∧
    search_by_patterns default_data (normalize_text (enc "planting season")) (enc "en") ≠ [] ∧
    get_answer default_data default_index (enc "planting season") (enc "fr") =
      get_response default_data (enc "not_found") (enc "en") ∧
    get_answer default_data default_index (enc "planting season") (enc "en") =
      answerText rice_planting_time (enc "en") ∧
    get_response default_data (enc "not_found") (enc "en") ≠
      answerText rice_planting_time (enc "en") :=
  ⟨by decide, by decide, by decide, by decide, by decide⟩

/-- C3 amended: for a language with no language-keyed data, answer lookups and
intent-response lookups do fall back to the English values, but the fuzzy pass
does not — an entry with no question variants registered for the language
contributes nothing (the variant list defaults to empty, not to English), so
when no entry has variants for the language the fuzzy pass returns no
matches. -/
theorem c3_english_fallback :
    (∀ (d : KBData) (q lang : Str),
      (∀ ckv ∈ d.categories, ∀ e ∈ ckv.2.entries, alookup e.question lang = none) →
      search_by_patterns d q lang = []) ∧
    (∀ (e : Entry) (lang : Str), alookup e.answer lang = none →
      answerText e lang = (alookup e.answer (enc "en")).getD []) ∧
    (∀ (d : KBData) (rtype lang : Str),
      alookup ((alookup d.responses rtype).getD []) lang = none →
      get_response d rtype lang =
        (alookup ((alookup d.responses rtype).getD []) (enc "en")).getD
          (enc "I apologize, but I cannot help with that right now.")) := by
  refine ⟨?_, ?_, ?_⟩
  · intro d q lang h
    unfold search_by_patterns
    have inner : ∀ (cid : Str) (es : List Entry) (ms : List MatchR),
        (∀ e ∈ es, alookup e.question lang = none) →
        es.foldl (fun ms e =>
          ((alookup e.question lang).getD []).foldl (fuzzyPattern q cid e) ms) ms = ms := by
      intro cid es
      induction es with
      | nil => intro ms _; rfl
      | cons e rest ih =>
        intro ms he
        show rest.foldl _
          (((alookup e.question lang).getD []).foldl (fuzzyPattern q cid e) ms) = ms
        rw [he e (List.mem_cons_self _ _)]
        exact ih ms (fun x hx => he x (List.mem_cons_of_mem _ hx))
    have outer : ∀ (cats : List (Str × Category)) (ms : List MatchR),
        (∀ ckv ∈ cats, ∀ e ∈ ckv.2.entries, alookup e.question lang = none) →
        cats.foldl (fun ms ckv => ckv.2.entries.foldl (fun ms e =>
          ((alookup e.question lang).getD []).foldl (fuzzyPattern q ckv.1 e) ms) ms) ms = ms := by
      intro cats
      induction cats with
      | nil => intro ms _; rfl
      | cons ckv rest ih =>
        intro ms hc
        show rest.foldl _ (ckv.2.entries.foldl _ ms) = ms
        rw [inner ckv.1 ckv.2.entries ms (hc ckv (List.mem_cons_self _ _))]
        exact ih ms (fun x hx => hc x (List.mem_cons_of_mem _ hx))
    exact outer d.categories [] h
  · intro e lang h
    unfold answerText
    rw [h]
    rfl
  · intro d rtype lang h
    show (alookup ((alookup d.responses rtype).getD []) lang).getD
        ((alookup ((alookup d.responses rtype).getD []) (enc "en")).getD
          (enc "I apologize, but I cannot help with that right now.")) =
      (alookup ((alookup d.responses rtype).getD []) (enc "en")).getD
        (enc "I apologize, but I cannot help with that right now.")
    rw [h]
    rfl

/-- Witness for the amended theorem of C3 at the language `"fr"`, the rice entry,
and the `not_found` intent. -/
theorem c3_english_fallback_witness :
    search_by_patterns default_data (normalize_text (enc "planting season")) (enc "fr") = [] ∧
    answerText rice_planting_time (enc "fr") =
      (alookup rice_planting_time.answer (enc "en")).getD [] ∧
    get_response default_data (enc "not_found") (enc "fr") =
      (alookup ((alookup default_data.responses (enc "not_found")).getD []) (enc "en")).getD
        (enc "I apologize, but I cannot help with that right now.") :=
  ⟨c3_english_fallback.1 default_data _ _ (by decide),
   c3_english_fallback.2.1 rice_planting_time _ (by decide),
   c3_english_fallback.2.2 default_data _ _ (by decide)⟩

/-- C6: the fuzzy pass never returns an entry whose similarity is ≤ 0.3 (every
produced pair carries a similarity strictly greater than 3/10), and when the
keyword pass found nothing and no pair exceeds the threshold (and no intent
short-circuit fired), `get_answer` produces the `not_found` response. -/
theorem c6_fuzzy_threshold :
    (∀ (d : KBData) (q lang : Str), ∀ m ∈ search_by_patterns d q lang,
      ∃ pr, m.similarity = some pr ∧ (3 : ℚ)/10 < simVal pr) ∧
    (∀ (d : KBData) (idx : List (Str × List Ref)) (q lang : Str),
      q.all isSpaceC = false →
      is_greeting d (normalize_text q) lang = false →
      is_help_request d (normalize_text q) lang = false →
      keyword_matches idx (normalize_text q) = [] →
      search_by_patterns d (normalize_text q) lang = [] →
      get_answer d idx q lang = get_response d (enc "not_found") lang) := by
  constructor
  · intro d q lang m hm
    rcases mem_search_by_patterns d q lang m hm with ⟨ckv, _, e, _, pr, hme, hpr⟩
    refine ⟨pr, ?_, (ratioGtThreshold_iff pr).mp hpr⟩
    rw [hme]
  · intro d idx q lang h1 h2 h3 h4 h5
    simp only [get_answer, search_entries, h1, h2, h3, h4, h5, Bool.false_eq_true,
      if_false, List.isEmpty_nil, if_true]

/-- Witness for C6: the first fuzzy pair for `"planting season"` (an above-
threshold rice pattern) indeed has similarity above 3/10, and `"zzz"` (no
keyword hit, no pair above threshold) yields the `not_found` response. -/
theorem c6_fuzzy_threshold_witness :
    (∃ pr, (MatchR.mk (enc "crop_planning") (enc "rice_planting_time") rice_planting_time
        (some (7, 33))).similarity = some pr ∧ (3 : ℚ)/10 < simVal pr) ∧
    get_answer default_data default_index (enc "zzz") (enc "en") =
      get_response default_data (enc "not_found") (enc "en") :=
  ⟨c6_fuzzy_threshold.1 default_data (normalize_text (enc "planting season")) (enc "en")
      (MatchR.mk (enc "crop_planning") (enc "rice_planting_time") rice_planting_time
        (some (7, 33))) (by decide),
   c6_fuzzy_threshold.2 default_data default_index (enc "zzz") (enc "en")
     (by decide) (by decide) (by decide) (by decide) (by decide)⟩

/-- C4: for every question string and every language string, `get_answer` on
the default knowledge base returns a non-empty string (and, being a total
function of its inputs in this embedding, no exception escapes it). -/
theorem c4_get_answer_total_nonempty (q lang : Str) :
    0 < (get_answer default_data default_index q lang).length := by
  have happly : ∀ rtype lg : Str,
      (∀ kv ∈ (alookup default_data.responses rtype).getD [], 0 < kv.2.length) →
      0 < (get_response default_data rtype lg).length := by
    intro rtype lg hvals
    exact length_pos_getD _ _ _ hvals (length_pos_getD _ _ _ hvals (by decide))
  have hans : ∀ e : Entry,
      e = rice_planting_time ∨ e = wheat_cultivation ∨ e = soil_testing →
      ∀ lg : Str, 0 < (answerText e lg).length := by
    intro e he lg
    rcases he with rfl | rfl | rfl
    · exact length_pos_getD _ _ _ (by decide) (by decide)
    · exact length_pos_getD _ _ _ (by decide) (by decide)
    · exact length_pos_getD _ _ _ (by decide) (by decide)
  have hentry : ∀ m ∈ search_entries default_data default_index (normalize_text q) lang,
      m.entry = rice_planting_time ∨ m.entry = wheat_cultivation ∨ m.entry = soil_testing := by
    intro m hm
    have hsplit : m ∈ keyword_matches default_index (normalize_text q) ∨
        m ∈ search_by_patterns default_data (normalize_text q) lang := by
      revert hm
      show m ∈ (if (keyword_matches default_index (normalize_text q)).isEmpty = true then
        search_by_patterns default_data (normalize_text q) lang
        else keyword_matches default_index (normalize_text q)) → _
      by_cases hke : (keyword_matches default_index (normalize_text q)).isEmpty = true
      · rw [if_pos hke]
        exact Or.inr
      · rw [if_neg hke]
        exact Or.inl
    rcases hsplit with hk | hf
    · rcases mem_keyword_matches _ _ _ hk with ⟨kv, hkv, r, hr, hm2⟩
      have hall : ∀ kv ∈ default_index, ∀ r ∈ kv.2,
          r.entry = rice_planting_time ∨ r.entry = wheat_cultivation ∨
          r.entry = soil_testing := by decide
      rw [hm2]
      exact hall kv hkv r hr
    · rcases mem_search_by_patterns _ _ _ _ hf with ⟨ckv, hckv, e, he, pr, hm2, _⟩
      have hall : ∀ ckv ∈ default_data.categories, ∀ e ∈ ckv.2.entries,
          e = rice_planting_time ∨ e = wheat_cultivation ∨ e = soil_testing := by decide
      rw [hm2]
      exact hall ckv hckv e he
  simp only [get_answer]
  split_ifs with h1 h2 h3
  · exact happly _ lang (by decide)
  · exact happly _ lang (by decide)
  · exact happly _ lang (by decide)
  · rcases hse : search_entries default_data default_index (normalize_text q) lang
      with _ | ⟨m, ms⟩
    · simp only [hse]
      exact happly _ lang (by decide)
    · simp only [hse]
      refine hans m.entry (hentry m ?_) lang
      rw [hse]
      exact List.mem_cons_self _ _

/-- C1 (the latent bug the specification flags): on the question
`"best time to check soil quality"` the keyword pass finds nothing; the first
fuzzy pair above the 0.3 threshold belongs to `rice_planting_time` (similarity
28/61), a strictly higher-scoring pair for `soil_testing` (36/49) appears
later in the list, and `get_answer` returns the rice answer — the first
above-threshold pair in iteration order, not the highest-scoring one. -/
theorem c1_first_pair_wins_not_best :
    keyword_matches default_index
      (normalize_text (enc "best time to check soil quality")) = [] ∧
    (search_by_patterns default_data
        (normalize_text (enc "best time to check soil quality")) (enc "en")).head? =
      some ⟨enc "crop_planning", enc "rice_planting_time", rice_planting_time,
        some (14, 61)⟩ ∧
    (⟨enc "soil_management", enc "soil_testing", soil_testing, some (18, 49)⟩ : MatchR) ∈
      search_by_patterns default_data
        (normalize_text (enc "best time to check soil quality")) (enc "en") ∧
    simVal (14, 61) < simVal (18, 49) ∧
    get_answer default_data default_index (enc "best time to check soil quality")
        (enc "en") = answerText rice_planting_time (enc "en") ∧
    answerText rice_planting_time (enc "en") ≠ answerText soil_testing (enc "en") := by
  refine ⟨by decide, by decide, by decide, ?_, by decide, by decide⟩
  rw [simVal_lt_iff (14, 61) (18, 49) (by decide) (by decide)]
  decide
